import Mathlib

/-!
Shallow embedding of the `dimasikpower/orderbook` matching engine
(`src/include/order.hpp`, `src/include/order_pool.hpp`,
`src/include/orderbook.hpp`, `src/src/orderbook.cpp`).

Modelling conventions:
* C++ `int` / `int32_t` quantities and price ticks are modelled as `Int`
  (no overflow occurs at any input evaluated here).
* `double total_value` is modelled as `ℚ`; every accumulation performed by
  the source at the inputs evaluated in this file is exact in `double`
  (integer values below 2^53 divided by 100 without a remainder), so the
  rational model agrees with the IEEE value at those points.
* Pointers to pool/heap order records are modelled by storing the order
  records by value inside the price levels; the source mutates records
  through the queue's head pointer, which corresponds to updating the
  record stored at the queue head.
* `std::set<int>` (the active-tick indexes) is modelled as a sorted
  duplicate-free ascending `List Int`; `*rbegin()` is the last element and
  `*begin()` the first, matching `std::set` iteration order.
* `std::unordered_map<uint64_t, std::pair<BookSide,int32_t>>` (the ID
  registry) is modelled as an association list with unique keys; the
  source never relies on its iteration order.
* The file `include/enums.hpp` is absent from `src/`.  Modelled from the
  spec: `Side ∈ {buy, sell}`, `BookSide ∈ {bid, ask}`,
  `OrderType ∈ {market, limit}` (§6 "Domain enumerations").
* `Orderbook::fill_bids` / `fill_asks` iterate the `std::set` of active
  ticks while erasing the tick currently pointed at (the erase inside the
  loop invalidates the reverse iterator); we model the de-facto intended
  traversal: the ordered list of active ticks captured at loop entry.
-/

/-- BookSide of a resting order. Modelled from the spec: `enums.hpp` is not
in `src/`; §6 gives `BookSide ∈ {bid, ask}`. -/
inductive BookSide where
  | bid
  | ask
deriving DecidableEq, Repr

/-- Side of an inbound order. Modelled from the spec: `enums.hpp` is not in
`src/`; §6 gives `Side ∈ {buy, sell}`. -/
inductive Side where
  | buy
  | sell
deriving DecidableEq, Repr

/-- Order type of an inbound order. Modelled from the spec: `enums.hpp` is
not in `src/`; §6 gives `order_type ∈ {market, limit}`. -/
inductive OrderType where
  | market
  | limit
deriving DecidableEq, Repr

/-- Order record (`include/order.hpp`): identifier, price tick, remaining
quantity.  The pool liveness flag is only relevant to the pool model
(`OrderPool` below); records resident in a queue are live. -/
structure Order where
  id : Nat
  price_cents : Int
  quantity : Int
deriving DecidableEq, Repr

/-- `MIN_PRICE_CENTS` from `include/orderbook.hpp`. -/
def MIN_PRICE_CENTS : Int := 1

/-- `MAX_PRICE_CENTS` from `include/orderbook.hpp`. -/
def MAX_PRICE_CENTS : Int := 200000

/-- `struct PriceLevel` (`include/orderbook.hpp`): a dynamic array of order
records plus a lazy head cursor; the logical content is the suffix starting
at `head`. -/
structure PriceLevel where
  orders : List Order
  head : Nat
deriving DecidableEq, Repr

/-- `PriceLevel::empty`: `head >= orders.size()`. -/
def PriceLevel.isEmpty (L : PriceLevel) : Bool :=
  L.orders.length ≤ L.head

/-- `PriceLevel::front` (const version): `nullptr` on an empty level,
otherwise `orders[head]`. -/
def PriceLevel.front (L : PriceLevel) : Option Order :=
  if L.isEmpty then none else L.orders.get? L.head

/-- `PriceLevel::pop_front`: `if (!empty()) head++`. -/
def PriceLevel.popFront (L : PriceLevel) : PriceLevel :=
  if L.isEmpty then L else { L with head := L.head + 1 }

/-- `PriceLevel::push_back`. -/
def PriceLevel.pushBack (L : PriceLevel) (o : Order) : PriceLevel :=
  { L with orders := L.orders ++ [o] }

/-- `PriceLevel::erase(size_t index)`: positions before the head cursor are
dead and the call is a no-op; otherwise the element at the absolute index is
removed from the backing array. -/
def PriceLevel.eraseAt (L : PriceLevel) (index : Nat) : PriceLevel :=
  if index < L.head then L
  else { L with orders := L.orders.eraseIdx index }

/-- Live content of a level: the suffix of the backing array starting at the
head cursor (what `begin()..end()` ranges over). -/
def PriceLevel.live (L : PriceLevel) : List Order :=
  L.orders.drop L.head

/-- Helper for `delete_order`: erase the first record with the given id from
a list, reporting whether one was found (the `for`-scan with
`orders.erase(it)` in `Orderbook::delete_order`). -/
def eraseFirstById : List Order → Nat → List Order × Bool
  | [], _ => ([], false)
  | o :: rest, i =>
    if o.id = i then (rest, true)
    else
      let r := eraseFirstById rest i
      (o :: r.1, r.2)

/-- Erase the (first) record with the given id from the live suffix of a
level; the dead prefix is untouched. -/
def PriceLevel.eraseById (L : PriceLevel) (i : Nat) : PriceLevel × Bool :=
  let r := eraseFirstById L.live i
  ({ L with orders := L.orders.take L.head ++ r.1 }, r.2)

/-- Helper for `modify_order`: overwrite the quantity of the first record
with the given id (the range-for scan in `Orderbook::modify_order`). -/
def modifyFirstById : List Order → Nat → Int → List Order × Bool
  | [], _, _ => ([], false)
  | o :: rest, i, nq =>
    if o.id = i then ({ o with quantity := nq } :: rest, true)
    else
      let r := modifyFirstById rest i nq
      (o :: r.1, r.2)

/-- Overwrite the quantity of the (first) live record with the given id in a
level, in place (queue position preserved). -/
def PriceLevel.modifyById (L : PriceLevel) (i : Nat) (nq : Int) : PriceLevel × Bool :=
  let r := modifyFirstById L.live i nq
  ({ L with orders := L.orders.take L.head ++ r.1 }, r.2)

/-- The ID registry `m_order_metadata : order_id → (side, price_cents)`. -/
abbrev Meta := List (Nat × BookSide × Int)

/-- `m_order_metadata.find(id)` / lookup. -/
def metaLookup : Meta → Nat → Option (BookSide × Int)
  | [], _ => none
  | e :: rest, i => if e.1 = i then some e.2 else metaLookup rest i

/-- `m_order_metadata.erase(id)`. -/
def metaErase : Meta → Nat → Meta
  | [], _ => []
  | e :: rest, i =>
    if e.1 = i then metaErase rest i else e :: metaErase rest i

/-- `m_order_metadata[id] = v` (insert-or-overwrite). -/
def metaInsert (m : Meta) (i : Nat) (v : BookSide × Int) : Meta :=
  (i, v) :: metaErase m i

/-- `std::set<int>::insert` on the sorted ascending active-tick list. -/
def tickInsert : List Int → Int → List Int
  | [], p => [p]
  | q :: rest, p =>
    if p < q then p :: q :: rest
    else if p = q then q :: rest
    else q :: tickInsert rest p

/-- `std::set<int>::erase` on the active-tick list. -/
def tickErase : List Int → Int → List Int
  | [], _ => []
  | q :: rest, p =>
    if q = p then tickErase rest p else q :: tickErase rest p

/-- Point update of a dense tick-indexed family of price levels (writing
`m_bids[idx]` back; levels are indexed here directly by tick,
`idx = tick − MIN_PRICE_CENTS` being a bijection onto the array). -/
def updLevel (f : Int → PriceLevel) (p : Int) (L : PriceLevel) : Int → PriceLevel :=
  fun t => if t = p then L else f t

/-- The `Orderbook` state: dense level arrays for both sides, the active-tick
index sets, the ID registry, the cached bests, the monotonic id counter of
the (otherwise unused) order pool, and the pool's free-slot count.
`m_order_pool` is declared in `orderbook.hpp` but no member function of the
source `Orderbook` ever calls `acquire`/`release`, so `poolFree` is constant
under every operation. -/
structure Orderbook where
  bids : Int → PriceLevel
  asks : Int → PriceLevel
  activeBids : List Int
  activeAsks : List Int
  meta : Meta
  bestBid : Int
  bestAsk : Int
  nextId : Nat
  poolFree : Nat

/-- `Orderbook(false)`: empty books, `m_best_bid = 0`,
`m_best_ask = MAX_PRICE_CENTS + 1`, pool capacity 1'000'000, id counter
starting at 1.  The `generate_dummies` seeding path (wall-clock sleeps and
`rand()`) is not modelled; all claims use `Orderbook(false)`. -/
def initOrderbook : Orderbook where
  bids := fun _ => ⟨[], 0⟩
  asks := fun _ => ⟨[], 0⟩
  activeBids := []
  activeAsks := []
  meta := []
  bestBid := 0
  bestAsk := MAX_PRICE_CENTS + 1
  nextId := 1
  poolFree := 1000000

/-- `Orderbook::add_order` (`orderbook.cpp:20-49`): bounds-check the tick,
construct a fresh order record, push it onto the level, activate the tick,
improve the cached best, register the id.
The source line `std::make_unique<Order>(qty, price_cents, side)` does not
match the `Order` constructor currently in `order.hpp` (mid-refactor
leftover).  Modelled from the spec: the record carries a fresh monotonic
identifier (§4.1, starts at 1, increments per allocation), the given
quantity and the given tick — the construction the unit tests
(`unit_tests.cpp:22-31`) assert. -/
def Orderbook.add_order (st : Orderbook) (qty : Int) (price_cents : Int)
    (side : BookSide) : Orderbook :=
  if price_cents < MIN_PRICE_CENTS ∨ price_cents > MAX_PRICE_CENTS then st
  else
    let i := st.nextId
    let o : Order := ⟨i, price_cents, qty⟩
    match side with
    | .bid =>
      { st with
        bids := updLevel st.bids price_cents ((st.bids price_cents).pushBack o)
        activeBids := tickInsert st.activeBids price_cents
        bestBid := if price_cents > st.bestBid then price_cents else st.bestBid
        meta := metaInsert st.meta i (.bid, price_cents)
        nextId := i + 1 }
    | .ask =>
      { st with
        asks := updLevel st.asks price_cents ((st.asks price_cents).pushBack o)
        activeAsks := tickInsert st.activeAsks price_cents
        bestAsk := if price_cents < st.bestAsk then price_cents else st.bestAsk
        meta := metaInsert st.meta i (.ask, price_cents)
        nextId := i + 1 }

/-- Result of the per-level inner match loop: the updated level, remaining
inbound quantity, accumulated units and value, and the registry / active
set / cached best threaded through the loop body. -/
structure FillRes where
  level : PriceLevel
  remq : Int
  units : Int
  val : ℚ
  meta : Meta
  act : List Int
  best : Int

/-- Inner `while (!orders.empty() && order_quantity > 0)` loop shared by
`fill_bids` and `fill_asks` (`orderbook.cpp:343-375` / `399-426`),
parametrised by the cached-best recomputation used when the level drains
(`reBest` receives the active set after erasing the tick).  The fuel is the
backing-array length, an upper bound on the number of pops. -/
def fillLevel (reBest : List Int → Int) :
    Nat → PriceLevel → Int → Int → Int → ℚ → Meta → List Int → Int → FillRes
  | 0, L, _, q, u, v, m, act, b => ⟨L, q, u, v, m, act, b⟩
  | fuel + 1, L, p, q, u, v, m, act, b =>
    if L.isEmpty = true ∨ q ≤ 0 then ⟨L, q, u, v, m, act, b⟩
    else
      match L.front with
      | none => ⟨L, q, u, v, m, act, b⟩
      | some o =>
        if o.quantity > q then
          -- partial fill: decrement the head record in place, stop
          ⟨{ L with orders := L.orders.set L.head { o with quantity := o.quantity - q } },
            0, u + q, v + ((q * p : Int) : ℚ) / 100, m, act, b⟩
        else
          -- full fill: pop the head, drop the registry entry,
          -- empty-queue bookkeeping when the level drains
          let L2 := L.popFront
          let m2 := metaErase m o.id
          let u2 := u + o.quantity
          let v2 := v + ((o.quantity * p : Int) : ℚ) / 100
          let q2 := q - o.quantity
          if L2.isEmpty then
            let act2 := tickErase act p
            let b2 := if p = b then reBest act2 else b
            fillLevel reBest fuel L2 p q2 u2 v2 m2 act2 b2
          else
            fillLevel reBest fuel L2 p q2 u2 v2 m2 act b

/-- Bid-side cached-best recomputation on level drain
(`orderbook.cpp:366-372`): 0 when no active bids remain, otherwise
`*m_active_bids.rbegin()` (the maximum = last of the ascending list). -/
def reBestBid (act : List Int) : Int :=
  match act with
  | [] => 0
  | _ => act.getLast?.getD 0

/-- Ask-side cached-best recomputation on level drain
(`orderbook.cpp:421-423`): `MAX_PRICE_CENTS + 1` when no active asks remain,
otherwise `*m_active_asks.begin()` (the minimum = first of the list). -/
def reBestAsk (act : List Int) : Int :=
  match act with
  | [] => MAX_PRICE_CENTS + 1
  | t :: _ => t

/-- Result of `fill_bids` / `fill_asks` / `handle_order`: the engine state and
the `(units_transacted, total_value)` summary, plus the leftover inbound
quantity (the by-reference `order_quantity`). -/
structure ExecRes where
  st : Orderbook
  remq : Int
  units : Int
  val : ℚ

/-- Outer tick walk of `Orderbook::fill_bids` (`orderbook.cpp:332-378`):
descending over the active-bid ticks, stopping at a limit barrier
(`limit_price > 0 && price_cents < limit_price`), running the inner loop at
each tick, stopping once the inbound quantity reaches zero. -/
def fillBidsWalk : List Int → Orderbook → Int → Int → Int → ℚ → ExecRes
  | [], st, _, q, u, v => ⟨st, q, u, v⟩
  | p :: rest, st, limit, q, u, v =>
    if limit > 0 ∧ p < limit then ⟨st, q, u, v⟩
    else
      let r := fillLevel reBestBid (st.bids p).orders.length (st.bids p) p q u v
        st.meta st.activeBids st.bestBid
      let st2 := { st with
        bids := updLevel st.bids p r.level
        meta := r.meta
        activeBids := r.act
        bestBid := r.best }
      if r.remq = 0 then ⟨st2, r.remq, r.units, r.val⟩
      else fillBidsWalk rest st2 limit r.remq r.units r.val

/-- Outer tick walk of `Orderbook::fill_asks` (`orderbook.cpp:390-429`):
ascending over the active-ask ticks, stopping at the barrier
`limit_price > 0 && price_cents > limit_price`. -/
def fillAsksWalk : List Int → Orderbook → Int → Int → Int → ℚ → ExecRes
  | [], st, _, q, u, v => ⟨st, q, u, v⟩
  | p :: rest, st, limit, q, u, v =>
    if limit > 0 ∧ p > limit then ⟨st, q, u, v⟩
    else
      let r := fillLevel reBestAsk (st.asks p).orders.length (st.asks p) p q u v
        st.meta st.activeAsks st.bestAsk
      let st2 := { st with
        asks := updLevel st.asks p r.level
        meta := r.meta
        activeAsks := r.act
        bestAsk := r.best }
      if r.remq = 0 then ⟨st2, r.remq, r.units, r.val⟩
      else fillAsksWalk rest st2 limit r.remq r.units r.val

/-- `Orderbook::fill_bids` (`orderbook.cpp:325-381`). -/
def Orderbook.fill_bids (st : Orderbook) (q : Int) (limit : Int) : ExecRes :=
  if st.activeBids = [] then ⟨st, q, 0, 0⟩
  else fillBidsWalk st.activeBids.reverse st limit q 0 0

/-- `Orderbook::fill_asks` (`orderbook.cpp:385-432`). -/
def Orderbook.fill_asks (st : Orderbook) (q : Int) (limit : Int) : ExecRes :=
  if st.activeAsks = [] then ⟨st, q, 0, 0⟩
  else fillAsksWalk st.activeAsks st limit q 0 0

/-- `Orderbook::handle_order` (`orderbook.cpp:145-185`): market orders run
the fill against the opposite side with no barrier (`limit_price = -1`);
limit orders test marketability against the cached best of the opposite
side (with the active set's emptiness deciding the `-1` sentinel) and rest
any residual quantity on their own side. -/
def Orderbook.handle_order (st : Orderbook) (type : OrderType) (q : Int)
    (side : Side) (price : Int) : ExecRes :=
  match type, side with
  | .market, .sell => st.fill_bids q (-1)
  | .market, .buy => st.fill_asks q (-1)
  | .limit, .buy =>
    let bestA := if st.activeAsks = [] then (-1 : Int) else st.bestAsk
    if bestA ≠ -1 ∧ bestA ≤ price then
      let r := st.fill_asks q price
      if r.remq > 0 then
        ⟨r.st.add_order r.remq price .bid, r.remq, r.units, r.val⟩
      else r
    else
      ⟨st.add_order q price .bid, q, 0, 0⟩
  | .limit, .sell =>
    let bestB := if st.activeBids = [] then (-1 : Int) else st.bestBid
    if bestB ≠ -1 ∧ bestB ≥ price then
      let r := st.fill_bids q price
      if r.remq > 0 then
        ⟨r.st.add_order r.remq price .ask, r.remq, r.units, r.val⟩
      else r
    else
      ⟨st.add_order q price .ask, q, 0, 0⟩

/-- `Orderbook::modify_order` (`orderbook.cpp:216-241`): registry lookup,
`idx >= order_levels.size()` guard (the level array has
`MAX_PRICE_CENTS + 1` slots), linear scan of the live queue at the
registered tick, in-place quantity overwrite. -/
def Orderbook.modify_order (st : Orderbook) (i : Nat) (new_qty : Int) :
    Orderbook × Bool :=
  match metaLookup st.meta i with
  | none => (st, false)
  | some (side, price_cents) =>
    if price_cents < MIN_PRICE_CENTS ∨ price_cents > MAX_PRICE_CENTS + 1 then
      (st, false)
    else
      match side with
      | .ask =>
        let r := (st.asks price_cents).modifyById i new_qty
        ({ st with asks := updLevel st.asks price_cents r.1 }, r.2)
      | .bid =>
        let r := (st.bids price_cents).modifyById i new_qty
        ({ st with bids := updLevel st.bids price_cents r.1 }, r.2)

/-- `Orderbook::delete_order` (`orderbook.cpp:244-275`): registry lookup,
registry erase, bounds guard, linear scan-and-erase of the record in the
queue at the registered tick.  NOTE: the source performs no empty-queue
bookkeeping here — the active-tick sets and the cached bests are left
untouched (`// НЕТ orders_map.erase(price)`), and nothing is released to
the pool. -/
def Orderbook.delete_order (st : Orderbook) (i : Nat) : Orderbook × Bool :=
  match metaLookup st.meta i with
  | none => (st, false)
  | some (side, price_cents) =>
    let st1 := { st with meta := metaErase st.meta i }
    if price_cents < MIN_PRICE_CENTS ∨ price_cents > MAX_PRICE_CENTS + 1 then
      (st1, false)
    else
      match side with
      | .bid =>
        let r := (st1.bids price_cents).eraseById i
        ({ st1 with bids := updLevel st1.bids price_cents r.1 }, r.2)
      | .ask =>
        let r := (st1.asks price_cents).eraseById i
        ({ st1 with asks := updLevel st1.asks price_cents r.1 }, r.2)

/-- Countdown scan of `Orderbook::best_quote` for the bid side
(`orderbook.cpp:198-204`): from `MAX_PRICE_CENTS` down, return the first
tick with a non-empty level, `-1` if none. -/
def scanDownBid (f : Int → PriceLevel) : Nat → Int → Int
  | 0, _ => -1
  | fuel + 1, p => if (f p).isEmpty then scanDownBid f fuel (p - 1) else p

/-- Count-up scan of `Orderbook::best_quote` for the ask side
(`orderbook.cpp:205-211`): from `MIN_PRICE_CENTS` up, return the first tick
with a non-empty level, `-1` if none. -/
def scanUpAsk (f : Int → PriceLevel) : Nat → Int → Int
  | 0, _ => -1
  | fuel + 1, p => if (f p).isEmpty then scanUpAsk f fuel (p + 1) else p

/-- `Orderbook::best_quote` (`orderbook.cpp:198-213`): a linear scan of the
dense level array — it does not read the cached bests `m_best_bid` /
`m_best_ask`. -/
def Orderbook.best_quote (st : Orderbook) (side : BookSide) : Int :=
  match side with
  | .bid => scanDownBid st.bids 200000 MAX_PRICE_CENTS
  | .ask => scanUpAsk st.asks 200000 MIN_PRICE_CENTS

/-- Pool model (`include/order_pool.hpp`): liveness flags of the backing
array and the free-index stack.  Record payloads are irrelevant to the
claims about `release`. -/
structure OrderPool where
  slots : List Bool
  free : List Nat
deriving DecidableEq, Repr

/-- A pointer argument to `OrderPool::release`: null, a pointer into the
backing array (identified with its slot index), or a foreign pointer
outside the array — for a foreign pointer the `order->active` read touches
memory the pool does not own, so the value read is an arbitrary boolean
supplied by the model. -/
inductive PoolHandle where
  | null
  | inPool (idx : Nat)
  | foreign (activeRead : Bool)
deriving DecidableEq, Repr

/-- Outcome of `OrderPool::release`: silently ignored (early `return`),
fatal (`std::abort()`), or slot freed. -/
inductive ReleaseOutcome where
  | ignored
  | fatal
  | freed
deriving DecidableEq, Repr

/-- `OrderPool::release` (`order_pool.hpp:31-48`): `if (!order ||
!order->active) return;` — null and non-live handles are silently ignored —
then the range check aborts on a foreign pointer, and otherwise the slot's
liveness is cleared and its index pushed onto the free stack. -/
def OrderPool.release (P : OrderPool) (h : PoolHandle) : OrderPool × ReleaseOutcome :=
  match h with
  | .null => (P, .ignored)
  | .foreign a => if a = false then (P, .ignored) else (P, .fatal)
  | .inPool idx =>
    if P.slots.getD idx false = false then (P, .ignored)
    else (⟨P.slots.set idx false, idx :: P.free⟩, .freed)

/-- Well-formedness of a price level: the head cursor does not run past the
backing array.  The source maintains this because `pop_front` advances the
head only on a non-empty level and every erase removes a position at or
after the head. -/
def LevelWF (L : PriceLevel) : Prop :=
  L.head ≤ L.orders.length

/-- The active-set/emptiness invariant of spec §8 (a tick is in the active
set of a side iff the queue at that tick is non-empty), together with the
head-cursor well-formedness of every level. -/
def BookInv (st : Orderbook) : Prop :=
  (∀ p : Int, LevelWF (st.bids p)) ∧
  (∀ p : Int, LevelWF (st.asks p)) ∧
  (∀ p : Int, p ∈ st.activeBids ↔ (st.bids p).isEmpty = false) ∧
  (∀ p : Int, p ∈ st.activeAsks ↔ (st.asks p).isEmpty = false)

/-- Scenario S1 book (spec §8): add bid 100@10050, then add bid 150@10050
on the empty book. -/
def s1Book : Orderbook :=
  (initOrderbook.add_order 100 10050 BookSide.bid).add_order 150 10050 BookSide.bid

/-- Scenario S1 execution: submit market sell 200 against `s1Book`. -/
def s1Run : ExecRes :=
  s1Book.handle_order OrderType.market 200 Side.sell 0

/-- A reachable state with a stale cached best bid: add bids at 100 and 90,
then cancel the order at 100.  `delete_order` leaves `m_best_bid = 100` and
the tick 100 in the active set although its queue is now empty. -/
def staleBook : Orderbook :=
  (((initOrderbook.add_order 1 100 BookSide.bid).add_order 1 90
    BookSide.bid).delete_order 1).1

/-! ### Basic lemmas about the embedded data structures -/

lemma isEmpty_eq_false_iff (L : PriceLevel) :
    L.isEmpty = false ↔ L.head < L.orders.length := by
  simp [PriceLevel.isEmpty]

lemma isEmpty_eq_true_iff (L : PriceLevel) :
    L.isEmpty = true ↔ L.orders.length ≤ L.head := by
  simp [PriceLevel.isEmpty]

lemma pushBack_isEmpty (L : PriceLevel) (o : Order) (h : LevelWF L) :
    (L.pushBack o).isEmpty = false := by
  rw [isEmpty_eq_false_iff]
  simp only [PriceLevel.pushBack, List.length_append, List.length_cons]
  unfold LevelWF at h
  omega

lemma pushBack_wf (L : PriceLevel) (o : Order) (h : LevelWF L) :
    LevelWF (L.pushBack o) := by
  simp only [LevelWF, PriceLevel.pushBack, List.length_append] at *
  omega

lemma popFront_wf (L : PriceLevel) (h : L.isEmpty = false) :
    LevelWF L.popFront := by
  rw [isEmpty_eq_false_iff] at h
  unfold LevelWF PriceLevel.popFront
  split
  · omega
  · simp only
    omega

lemma tickInsert_mem (l : List Int) (p a : Int) :
    a ∈ tickInsert l p ↔ a = p ∨ a ∈ l := by
  induction l with
  | nil => simp [tickInsert]
  | cons q rest ih =>
    simp only [tickInsert]
    by_cases h1 : p < q
    · rw [if_pos h1]
      exact List.mem_cons
    · by_cases h2 : p = q
      · subst h2
        rw [if_neg h1, if_pos rfl]
        constructor
        · exact Or.inr
        · rintro (rfl | hm)
          · exact List.mem_cons_self _ _
          · exact hm
      · rw [if_neg h1, if_neg h2]
        simp only [List.mem_cons, ih]
        tauto

lemma tickErase_mem (l : List Int) (p a : Int) :
    a ∈ tickErase l p ↔ a ∈ l ∧ a ≠ p := by
  induction l with
  | nil => simp [tickErase]
  | cons q rest ih =>
    simp only [tickErase]
    by_cases h : q = p
    · subst h
      rw [if_pos rfl, ih]
      simp only [List.mem_cons]
      constructor
      · rintro ⟨hr, hne⟩
        exact ⟨Or.inr hr, hne⟩
      · rintro ⟨rfl | hr, hne⟩
        · exact absurd rfl hne
        · exact ⟨hr, hne⟩
    · rw [if_neg h]
      simp only [List.mem_cons, ih]
      constructor
      · rintro (rfl | ⟨hr, hne⟩)
        · exact ⟨Or.inl rfl, fun hc => h hc⟩
        · exact ⟨Or.inr hr, hne⟩
      · rintro ⟨rfl | hr, hne⟩
        · exact Or.inl rfl
        · exact Or.inr ⟨hr, hne⟩

lemma metaErase_of_lookup_none (m : Meta) (i : Nat)
    (h : metaLookup m i = none) : metaErase m i = m := by
  induction m with
  | nil => rfl
  | cons e rest ih =>
    unfold metaLookup at h
    unfold metaErase
    by_cases he : e.1 = i
    · simp [he] at h
    · simp only [if_neg he]
      simp only [if_neg he] at h
      rw [ih h]

lemma metaErase_metaErase (m : Meta) (i : Nat) :
    metaErase (metaErase m i) i = metaErase m i := by
  induction m with
  | nil => rfl
  | cons e rest ih =>
    by_cases he : e.1 = i
    · simp only [metaErase, if_pos he]
      exact ih
    · simp only [metaErase, if_neg he]
      rw [ih]

lemma updLevel_cancel (f : Int → PriceLevel) (p : Int) (L L' : PriceLevel)
    (h : L' = f p) : updLevel (updLevel f p L) p L' = f := by
  funext a
  unfold updLevel
  by_cases ha : a = p
  · subst ha
    simp [h]
  · simp [ha]
lemma fillLevel_inv (reBest : List Int → Int) (fuel : Nat) :
    ∀ (L : PriceLevel) (p q u : Int) (v : ℚ) (m : Meta) (act : List Int) (b : Int),
      LevelWF L → (p ∈ act ↔ L.isEmpty = false) →
      LevelWF (fillLevel reBest fuel L p q u v m act b).level ∧
      (∀ a : Int, a ∈ (fillLevel reBest fuel L p q u v m act b).act ↔
        (if a = p then (fillLevel reBest fuel L p q u v m act b).level.isEmpty = false
         else a ∈ act)) := by
  induction fuel with
  | zero =>
    intro L p q u v m act b hWF hp
    simp only [fillLevel]
    refine ⟨hWF, fun a => ?_⟩
    by_cases ha : a = p
    · subst ha
      simp only [if_pos rfl]
      exact hp
    · simp only [if_neg ha]
  | succ n ih =>
    intro L p q u v m act b hWF hp
    by_cases hg : L.isEmpty = true ∨ q ≤ 0
    · simp only [fillLevel, if_pos hg]
      refine ⟨hWF, fun a => ?_⟩
      by_cases ha : a = p
      · subst ha
        simp only [if_pos rfl]
        exact hp
      · simp only [if_neg ha]
    · have hne : L.isEmpty = false := by
        cases hL : L.isEmpty with
        | false => rfl
        | true => exact absurd (Or.inl hL) hg
      cases hf : L.front with
      | none =>
        exfalso
        have hlt := (isEmpty_eq_false_iff L).mp hne
        unfold PriceLevel.front at hf
        rw [hne] at hf
        simp only [Bool.false_eq_true, if_false] at hf
        rw [List.get?_eq_none] at hf
        omega
      | some o =>
        simp only [fillLevel, if_neg hg, hf]
        by_cases hoq : o.quantity > q
        · simp only [if_pos hoq]
          have hlen : ({ L with orders := L.orders.set L.head { o with quantity := o.quantity - q } } : PriceLevel).isEmpty = false := by
            rw [isEmpty_eq_false_iff]
            simp only [List.length_set]
            exact (isEmpty_eq_false_iff L).mp hne
          refine ⟨?_, fun a => ?_⟩
          · unfold LevelWF at *
            simp only [List.length_set]
            exact hWF
          · by_cases ha : a = p
            · subst ha
              rw [hne] at hp
              simp [hlen, hp]
            · simp only [if_neg ha]
        · simp only [if_neg hoq]
          have hWF2 : LevelWF L.popFront := popFront_wf L hne
          have hp_act : p ∈ act := hp.mpr hne
          split
          next h2 =>
            have hp2 : p ∈ tickErase act p ↔ L.popFront.isEmpty = false := by
              rw [tickErase_mem]
              simp [h2]
            have hrec := ih L.popFront p (q - o.quantity) (u + o.quantity)
              (v + ((o.quantity * p : Int) : ℚ) / 100) (metaErase m o.id)
              (tickErase act p) (if p = b then reBest (tickErase act p) else b) hWF2 hp2
            refine ⟨hrec.1, fun a => ?_⟩
            rw [hrec.2 a]
            by_cases ha : a = p
            · simp only [if_pos ha]
            · simp only [if_neg ha, tickErase_mem]
              constructor
              · exact fun h => h.1
              · exact fun h => ⟨h, ha⟩
          next h2 =>
            have h2' : L.popFront.isEmpty = false := by
              cases hL : L.popFront.isEmpty with
              | false => rfl
              | true => exact absurd hL h2
            have hp2 : p ∈ act ↔ L.popFront.isEmpty = false := by
              rw [h2']
              simp only [hp_act]
            exact ih L.popFront p (q - o.quantity) (u + o.quantity)
              (v + ((o.quantity * p : Int) : ℚ) / 100) (metaErase m o.id) act b hWF2 hp2

lemma fillBidsWalk_inv (ticks : List Int) :
    ∀ (st : Orderbook) (limit q u : Int) (v : ℚ),
      BookInv st → BookInv (fillBidsWalk ticks st limit q u v).st := by
  induction ticks with
  | nil => intro st limit q u v h; exact h
  | cons p rest ih =>
    intro st limit q u v h
    simp only [fillBidsWalk]
    split
    · exact h
    · obtain ⟨hWFb, hWFa, hB, hA⟩ := h
      have hr := fillLevel_inv reBestBid (st.bids p).orders.length (st.bids p) p q u v
        st.meta st.activeBids st.bestBid (hWFb p) (hB p)
      have hInv2 : BookInv { st with
          bids := updLevel st.bids p (fillLevel reBestBid (st.bids p).orders.length
            (st.bids p) p q u v st.meta st.activeBids st.bestBid).level
          meta := (fillLevel reBestBid (st.bids p).orders.length
            (st.bids p) p q u v st.meta st.activeBids st.bestBid).meta
          activeBids := (fillLevel reBestBid (st.bids p).orders.length
            (st.bids p) p q u v st.meta st.activeBids st.bestBid).act
          bestBid := (fillLevel reBestBid (st.bids p).orders.length
            (st.bids p) p q u v st.meta st.activeBids st.bestBid).best } := by
        refine ⟨?_, hWFa, ?_, hA⟩
        · intro a
          simp only [updLevel]
          by_cases hap : a = p
          · rw [if_pos hap]
            exact hr.1
          · rw [if_neg hap]
            exact hWFb a
        · intro a
          simp only [updLevel]
          rw [hr.2 a]
          by_cases hap : a = p
          · rw [if_pos hap, if_pos hap]
          · rw [if_neg hap, if_neg hap]
            exact hB a
      split
      · exact hInv2
      · exact ih _ _ _ _ _ hInv2

lemma fillAsksWalk_inv (ticks : List Int) :
    ∀ (st : Orderbook) (limit q u : Int) (v : ℚ),
      BookInv st → BookInv (fillAsksWalk ticks st limit q u v).st := by
  induction ticks with
  | nil => intro st limit q u v h; exact h
  | cons p rest ih =>
    intro st limit q u v h
    simp only [fillAsksWalk]
    split
    · exact h
    · obtain ⟨hWFb, hWFa, hB, hA⟩ := h
      have hr := fillLevel_inv reBestAsk (st.asks p).orders.length (st.asks p) p q u v
        st.meta st.activeAsks st.bestAsk (hWFa p) (hA p)
      have hInv2 : BookInv { st with
          asks := updLevel st.asks p (fillLevel reBestAsk (st.asks p).orders.length
            (st.asks p) p q u v st.meta st.activeAsks st.bestAsk).level
          meta := (fillLevel reBestAsk (st.asks p).orders.length
            (st.asks p) p q u v st.meta st.activeAsks st.bestAsk).meta
          activeAsks := (fillLevel reBestAsk (st.asks p).orders.length
            (st.asks p) p q u v st.meta st.activeAsks st.bestAsk).act
          bestAsk := (fillLevel reBestAsk (st.asks p).orders.length
            (st.asks p) p q u v st.meta st.activeAsks st.bestAsk).best } := by
        refine ⟨hWFb, ?_, hB, ?_⟩
        · intro a
          simp only [updLevel]
          by_cases hap : a = p
          · rw [if_pos hap]
            exact hr.1
          · rw [if_neg hap]
            exact hWFa a
        · intro a
          simp only [updLevel]
          rw [hr.2 a]
          by_cases hap : a = p
          · rw [if_pos hap, if_pos hap]
          · rw [if_neg hap, if_neg hap]
            exact hA a
      split
      · exact hInv2
      · exact ih _ _ _ _ _ hInv2

lemma fill_bids_inv (st : Orderbook) (q limit : Int) (h : BookInv st) :
    BookInv (st.fill_bids q limit).st := by
  unfold Orderbook.fill_bids
  split
  · exact h
  · exact fillBidsWalk_inv _ _ _ _ _ _ h

lemma fill_asks_inv (st : Orderbook) (q limit : Int) (h : BookInv st) :
    BookInv (st.fill_asks q limit).st := by
  unfold Orderbook.fill_asks
  split
  · exact h
  · exact fillAsksWalk_inv _ _ _ _ _ _ h

lemma add_order_inv (st : Orderbook) (qty pc : Int) (side : BookSide)
    (h : BookInv st) : BookInv (st.add_order qty pc side) := by
  unfold Orderbook.add_order
  split
  · exact h
  · obtain ⟨hWFb, hWFa, hB, hA⟩ := h
    cases side
    · refine ⟨?_, hWFa, ?_, hA⟩
      · intro a
        simp only [updLevel]
        by_cases hap : a = pc
        · rw [if_pos hap]
          exact pushBack_wf _ _ (hWFb pc)
        · rw [if_neg hap]
          exact hWFb a
      · intro a
        rw [tickInsert_mem]
        simp only [updLevel]
        by_cases hap : a = pc
        · rw [if_pos hap]
          simp [hap, pushBack_isEmpty _ _ (hWFb pc)]
        · rw [if_neg hap]
          simp [hap, hB a]
    · refine ⟨hWFb, ?_, hB, ?_⟩
      · intro a
        simp only [updLevel]
        by_cases hap : a = pc
        · rw [if_pos hap]
          exact pushBack_wf _ _ (hWFa pc)
        · rw [if_neg hap]
          exact hWFa a
      · intro a
        rw [tickInsert_mem]
        simp only [updLevel]
        by_cases hap : a = pc
        · rw [if_pos hap]
          simp [hap, pushBack_isEmpty _ _ (hWFa pc)]
        · rw [if_neg hap]
          simp [hap, hA a]

lemma modifyFirstById_length (l : List Order) (i : Nat) (nq : Int) :
    ((modifyFirstById l i nq).1).length = l.length := by
  induction l with
  | nil => rfl
  | cons o rest ih =>
    simp only [modifyFirstById]
    split
    · simp
    · simp [ih]

lemma modifyById_length (L : PriceLevel) (i : Nat) (nq : Int) (hWF : LevelWF L) :
    ((L.modifyById i nq).1).orders.length = L.orders.length ∧
    ((L.modifyById i nq).1).head = L.head := by
  unfold PriceLevel.modifyById
  constructor
  · simp only [List.length_append, List.length_take, modifyFirstById_length,
      PriceLevel.live, List.length_drop]
    unfold LevelWF at hWF
    omega
  · rfl

lemma modifyById_isEmpty (L : PriceLevel) (i : Nat) (nq : Int) (hWF : LevelWF L) :
    ((L.modifyById i nq).1).isEmpty = L.isEmpty := by
  have h := modifyById_length L i nq hWF
  unfold PriceLevel.isEmpty
  rw [h.1, h.2]

lemma modify_order_inv (st : Orderbook) (i : Nat) (nq : Int)
    (h : BookInv st) : BookInv (st.modify_order i nq).1 := by
  unfold Orderbook.modify_order
  cases hm : metaLookup st.meta i with
  | none => exact h
  | some v =>
    obtain ⟨side, pc⟩ := v
    simp only
    split
    · exact h
    · obtain ⟨hWFb, hWFa, hB, hA⟩ := h
      cases side
      · refine ⟨?_, hWFa, ?_, hA⟩
        · intro a
          simp only [updLevel]
          by_cases hap : a = pc
          · rw [if_pos hap]
            unfold LevelWF
            rw [(modifyById_length _ i nq (hWFb pc)).1, (modifyById_length _ i nq (hWFb pc)).2]
            exact hWFb pc
          · rw [if_neg hap]
            exact hWFb a
        · intro a
          simp only [updLevel]
          by_cases hap : a = pc
          · rw [if_pos hap, modifyById_isEmpty _ i nq (hWFb pc), hap]
            exact hB pc
          · rw [if_neg hap]
            exact hB a
      · refine ⟨hWFb, ?_, hB, ?_⟩
        · intro a
          simp only [updLevel]
          by_cases hap : a = pc
          · rw [if_pos hap]
            unfold LevelWF
            rw [(modifyById_length _ i nq (hWFa pc)).1, (modifyById_length _ i nq (hWFa pc)).2]
            exact hWFa pc
          · rw [if_neg hap]
            exact hWFa a
        · intro a
          simp only [updLevel]
          by_cases hap : a = pc
          · rw [if_pos hap, modifyById_isEmpty _ i nq (hWFa pc), hap]
            exact hA pc
          · rw [if_neg hap]
            exact hA a

lemma handle_order_inv (st : Orderbook) (ty : OrderType) (q : Int) (sd : Side)
    (pr : Int) (h : BookInv st) : BookInv (st.handle_order ty q sd pr).st := by
  cases ty with
  | market =>
    cases sd with
    | sell => exact fill_bids_inv st q (-1) h
    | buy => exact fill_asks_inv st q (-1) h
  | limit =>
    cases sd with
    | buy =>
      unfold Orderbook.handle_order
      simp only
      by_cases hc : (if st.activeAsks = [] then (-1 : Int) else st.bestAsk) ≠ -1 ∧
          (if st.activeAsks = [] then (-1 : Int) else st.bestAsk) ≤ pr
      · rw [if_pos hc]
        by_cases hq : (st.fill_asks q pr).remq > 0
        · rw [if_pos hq]
          exact add_order_inv _ _ _ _ (fill_asks_inv st q pr h)
        · rw [if_neg hq]
          exact fill_asks_inv st q pr h
      · rw [if_neg hc]
        exact add_order_inv _ _ _ _ h
    | sell =>
      unfold Orderbook.handle_order
      simp only
      by_cases hc : (if st.activeBids = [] then (-1 : Int) else st.bestBid) ≠ -1 ∧
          (if st.activeBids = [] then (-1 : Int) else st.bestBid) ≥ pr
      · rw [if_pos hc]
        by_cases hq : (st.fill_bids q pr).remq > 0
        · rw [if_pos hq]
          exact add_order_inv _ _ _ _ (fill_bids_inv st q pr h)
        · rw [if_neg hq]
          exact fill_bids_inv st q pr h
      · rw [if_neg hc]
        exact add_order_inv _ _ _ _ h

/-! ### Characterization of the best-quote linear scans -/

lemma scanDownBid_hit (f : Int → PriceLevel) (fuel : Nat) (start p : Int)
    (h1 : start - fuel < p) (h2 : p ≤ start) (h3 : (f p).isEmpty = false)
    (h4 : ∀ t : Int, p < t → t ≤ start → (f t).isEmpty = true) :
    scanDownBid f fuel start = p := by
  induction fuel generalizing start with
  | zero => simp at h1; omega
  | succ n ih =>
    unfold scanDownBid
    by_cases hp : p = start
    · subst hp; simp [h3]
    · have hlt : p < start := lt_of_le_of_ne h2 hp
      rw [h4 start hlt le_rfl]
      simp only [if_true]
      exact ih (start - 1) (by omega) (by omega) (fun t ht1 ht2 => h4 t ht1 (by omega))

lemma scanDownBid_none (f : Int → PriceLevel) (fuel : Nat) (start : Int)
    (h : ∀ t : Int, start - fuel < t → t ≤ start → (f t).isEmpty = true) :
    scanDownBid f fuel start = -1 := by
  induction fuel generalizing start with
  | zero => rfl
  | succ n ih =>
    unfold scanDownBid
    rw [h start (by omega) le_rfl]
    simp only [if_true]
    exact ih (start - 1) (fun t ht1 ht2 => h t (by omega) (by omega))

lemma scanUpAsk_hit (f : Int → PriceLevel) (fuel : Nat) (start p : Int)
    (h1 : start ≤ p) (h2 : p < start + fuel) (h3 : (f p).isEmpty = false)
    (h4 : ∀ t : Int, start ≤ t → t < p → (f t).isEmpty = true) :
    scanUpAsk f fuel start = p := by
  induction fuel generalizing start with
  | zero => simp at h2; omega
  | succ n ih =>
    unfold scanUpAsk
    by_cases hp : p = start
    · subst hp; simp [h3]
    · have hlt : start < p := lt_of_le_of_ne h1 (fun h => hp h.symm)
      rw [h4 start le_rfl hlt]
      simp only [if_true]
      exact ih (start + 1) (by omega) (by omega) (fun t ht1 ht2 => h4 t (by omega) ht2)

lemma scanUpAsk_none (f : Int → PriceLevel) (fuel : Nat) (start : Int)
    (h : ∀ t : Int, start ≤ t → t < start + fuel → (f t).isEmpty = true) :
    scanUpAsk f fuel start = -1 := by
  induction fuel generalizing start with
  | zero => rfl
  | succ n ih =>
    unfold scanUpAsk
    rw [h start le_rfl (by omega)]
    simp only [if_true]
    exact ih (start + 1) (fun t ht1 ht2 => h t (by omega) (by omega))

/-! ### Scan-and-mutate helpers of cancel and modify -/

lemma eraseFirstById_append_fresh (l : List Order) (o : Order) (i : Nat)
    (hl : ∀ x ∈ l, x.id ≠ i) (ho : o.id = i) :
    eraseFirstById (l ++ [o]) i = (l, true) := by
  induction l with
  | nil => simp [eraseFirstById, ho]
  | cons x rest ih =>
    simp only [List.cons_append, eraseFirstById]
    rw [if_neg (hl x (List.mem_cons_self _ _))]
    simp [ih (fun y hy => hl y (List.mem_cons_of_mem _ hy))]

lemma modifyFirstById_spec (pre : List Order) (o : Order) (post : List Order)
    (i : Nat) (nq : Int) (hpre : ∀ x ∈ pre, x.id ≠ i) (ho : o.id = i) :
    modifyFirstById (pre ++ o :: post) i nq =
      (pre ++ { o with quantity := nq } :: post, true) := by
  induction pre with
  | nil => simp [modifyFirstById, ho]
  | cons x rest ih =>
    simp only [List.cons_append, modifyFirstById]
    rw [if_neg (hpre x (List.mem_cons_self _ _))]
    simp [ih (fun y hy => hpre y (List.mem_cons_of_mem _ hy))]

/-! ### Claim theorems -/

/-- C1: the spec and the unit tests (`unit_tests.cpp:52-53`) state that the
returned notional of a match is Σ fill_qty × fill_tick in integer ticks —
for scenario S1, 200·10050 = 2 010 000.  The engine's fill loops instead
accumulate `(qty * price_cents) / 100.0`: the run returns
filled_qty = 200 but filled_notional = 20100, a factor of 100 away from the
claimed (and unit-test-asserted) value. -/
theorem C1_s1_notional_eval :
    s1Run.units = 200 ∧ s1Run.val = 20100 ∧
    (20100 : ℚ) ≠ 100 * 10050 + 100 * 10050 := by
  refine ⟨by decide, ?_, by norm_num⟩
  have h : s1Run.val = (0 : ℚ) + ((100 * 10050 : Int) : ℚ) / 100 +
      (((200 - 100) * 10050 : Int) : ℚ) / 100 := rfl
  rw [h]
  norm_num

/-- C2 counterexample: adding a bid at a fresh tick 5 and immediately
cancelling it returns `true`, yet the active bid set remains `[5]` (it was
`[]` before the add) and the cached best bid remains 5 (it was 0):
`delete_order` performs no empty-queue bookkeeping, so the state is not
observationally equivalent to the pre-add state. -/
theorem C2_add_cancel_counterexample :
    ((initOrderbook.add_order 1 5 BookSide.bid).delete_order 1).2 = true ∧
    ((initOrderbook.add_order 1 5 BookSide.bid).delete_order 1).1.activeBids = [5] ∧
    initOrderbook.activeBids = [] ∧
    ((initOrderbook.add_order 1 5 BookSide.bid).delete_order 1).1.bestBid = 5 ∧
    initOrderbook.bestBid = 0 := by
  decide

/-- C2 (amended): `add(q, t, s)` followed by `cancel` of the new order's
identifier restores the level arrays of both sides, the ID registry, and
(trivially — the pool is never touched) the pool free-slot count; but it
does not restore the active-tick sets or the cached bests (see the
counterexample), and the id counter advances. -/
theorem C2_add_cancel_amended (st : Orderbook) (qty t : Int) (s : BookSide)
    (hWFb : LevelWF (st.bids t)) (hWFa : LevelWF (st.asks t))
    (hm : metaLookup st.meta st.nextId = none)
    (hfb : ∀ o ∈ (st.bids t).live, o.id ≠ st.nextId)
    (hfa : ∀ o ∈ (st.asks t).live, o.id ≠ st.nextId) :
    (((st.add_order qty t s).delete_order st.nextId).1.bids = st.bids) ∧
    (((st.add_order qty t s).delete_order st.nextId).1.asks = st.asks) ∧
    (((st.add_order qty t s).delete_order st.nextId).1.meta = st.meta) ∧
    (((st.add_order qty t s).delete_order st.nextId).1.poolFree = st.poolFree) := by
  by_cases hr : t < MIN_PRICE_CENTS ∨ t > MAX_PRICE_CENTS
  · have hadd : st.add_order qty t s = st := by
      unfold Orderbook.add_order
      rw [if_pos hr]
    rw [hadd]
    have hdel : st.delete_order st.nextId = (st, false) := by
      unfold Orderbook.delete_order
      rw [hm]
    rw [hdel]
    exact ⟨rfl, rfl, rfl, rfl⟩
  · have hrange : ¬(t < MIN_PRICE_CENTS ∨ t > MAX_PRICE_CENTS + 1) := by
      unfold MIN_PRICE_CENTS MAX_PRICE_CENTS at *
      omega
    cases s
    · have hadd : st.add_order qty t .bid = { st with
          bids := updLevel st.bids t ((st.bids t).pushBack ⟨st.nextId, t, qty⟩)
          activeBids := tickInsert st.activeBids t
          bestBid := if t > st.bestBid then t else st.bestBid
          meta := metaInsert st.meta st.nextId (.bid, t)
          nextId := st.nextId + 1 } := by
        unfold Orderbook.add_order
        rw [if_neg hr]
      rw [hadd]
      have hlook : metaLookup (metaInsert st.meta st.nextId (.bid, t)) st.nextId =
          some (.bid, t) := by
        simp [metaInsert, metaLookup]
      have hmeta : metaErase (metaInsert st.meta st.nextId (.bid, t)) st.nextId =
          st.meta := by
        simp only [metaInsert, metaErase, eq_self_iff_true, if_true]
        rw [metaErase_metaErase, metaErase_of_lookup_none st.meta st.nextId hm]
      have herase : ((updLevel st.bids t
          ((st.bids t).pushBack ⟨st.nextId, t, qty⟩)) t).eraseById st.nextId =
          (st.bids t, true) := by
        simp only [updLevel, eq_self_iff_true, if_true]
        unfold PriceLevel.eraseById PriceLevel.pushBack PriceLevel.live
        simp only
        rw [List.drop_append_of_le_length hWFb, List.take_append_of_le_length hWFb]
        rw [eraseFirstById_append_fresh (List.drop (st.bids t).head (st.bids t).orders)
          ⟨st.nextId, t, qty⟩ st.nextId hfb rfl]
        simp only
        rw [List.take_append_drop]
      unfold Orderbook.delete_order
      rw [hlook]
      simp only
      rw [if_neg hrange]
      simp only [hmeta, herase]
      refine ⟨?_, trivial, trivial, trivial⟩
      exact updLevel_cancel st.bids t _ _ rfl
    · have hadd : st.add_order qty t .ask = { st with
          asks := updLevel st.asks t ((st.asks t).pushBack ⟨st.nextId, t, qty⟩)
          activeAsks := tickInsert st.activeAsks t
          bestAsk := if t < st.bestAsk then t else st.bestAsk
          meta := metaInsert st.meta st.nextId (.ask, t)
          nextId := st.nextId + 1 } := by
        unfold Orderbook.add_order
        rw [if_neg hr]
      rw [hadd]
      have hlook : metaLookup (metaInsert st.meta st.nextId (.ask, t)) st.nextId =
          some (.ask, t) := by
        simp [metaInsert, metaLookup]
      have hmeta : metaErase (metaInsert st.meta st.nextId (.ask, t)) st.nextId =
          st.meta := by
        simp only [metaInsert, metaErase, eq_self_iff_true, if_true]
        rw [metaErase_metaErase, metaErase_of_lookup_none st.meta st.nextId hm]
      have herase : ((updLevel st.asks t
          ((st.asks t).pushBack ⟨st.nextId, t, qty⟩)) t).eraseById st.nextId =
          (st.asks t, true) := by
        simp only [updLevel, eq_self_iff_true, if_true]
        unfold PriceLevel.eraseById PriceLevel.pushBack PriceLevel.live
        simp only
        rw [List.drop_append_of_le_length hWFa, List.take_append_of_le_length hWFa]
        rw [eraseFirstById_append_fresh (List.drop (st.asks t).head (st.asks t).orders)
          ⟨st.nextId, t, qty⟩ st.nextId hfa rfl]
        simp only
        rw [List.take_append_drop]
      unfold Orderbook.delete_order
      rw [hlook]
      simp only
      rw [if_neg hrange]
      simp only [hmeta, herase]
      refine ⟨trivial, ?_, trivial, trivial⟩
      exact updLevel_cancel st.asks t _ _ rfl

/-- C2 witness: the amended round trip evaluated on the empty book at
tick 5. -/
theorem C2_add_cancel_witness :
    (((initOrderbook.add_order 1 5 BookSide.bid).delete_order
        initOrderbook.nextId).1.bids = initOrderbook.bids) ∧
    (((initOrderbook.add_order 1 5 BookSide.bid).delete_order
        initOrderbook.nextId).1.asks = initOrderbook.asks) ∧
    (((initOrderbook.add_order 1 5 BookSide.bid).delete_order
        initOrderbook.nextId).1.meta = initOrderbook.meta) ∧
    (((initOrderbook.add_order 1 5 BookSide.bid).delete_order
        initOrderbook.nextId).1.poolFree = initOrderbook.poolFree) :=
  C2_add_cancel_amended initOrderbook 1 5 BookSide.bid (Nat.le_refl 0) (Nat.le_refl 0)
    rfl (fun o ho => absurd ho (List.not_mem_nil o))
    (fun o ho => absurd ho (List.not_mem_nil o))

/-- C3 counterexample: from the (invariant-satisfying) state with a single
bid at tick 5, the public cancel operation leaves tick 5 in the active bid
set while its queue is empty: `delete_order` does not preserve the
active-set/emptiness invariant and performs no empty-queue bookkeeping. -/
theorem C3_invariant_counterexample :
    BookInv (initOrderbook.add_order 1 5 BookSide.bid) ∧
    ¬ BookInv (((initOrderbook.add_order 1 5 BookSide.bid).delete_order 1).1) := by
  constructor
  · have hb : (initOrderbook.add_order 1 5 BookSide.bid).bids =
        updLevel (fun _ => ⟨[], 0⟩) 5 ⟨[⟨1, 5, 1⟩], 0⟩ := rfl
    refine ⟨fun p => ?_, fun p => ?_, fun p => ?_, fun p => ?_⟩
    · rw [hb]
      unfold updLevel
      split
      · exact Nat.zero_le _
      · exact Nat.zero_le _
    · exact Nat.zero_le _
    · rw [hb]
      unfold updLevel
      by_cases hp : p = (5 : Int)
      · subst hp
        decide
      · rw [if_neg hp]
        rw [show (initOrderbook.add_order 1 5 BookSide.bid).activeBids = [5] from rfl]
        simp [hp, PriceLevel.isEmpty]
    · rw [show (initOrderbook.add_order 1 5 BookSide.bid).activeAsks = [] from rfl,
        show (initOrderbook.add_order 1 5 BookSide.bid).asks =
          (fun _ => (⟨[], 0⟩ : PriceLevel)) from rfl]
      simp [PriceLevel.isEmpty]
  · intro hinv
    have h5 := (hinv.2.2.1 5).mp (by decide)
    exact absurd h5 (by decide)

/-- C3 (amended): `add_order`, `handle_order` (market and limit submission)
and `modify_order` each preserve the active-set/emptiness invariant — the
fill loops deactivate a tick exactly when its queue drains; `delete_order`
does not preserve it (see the counterexample): a cancel that empties the
last order at a tick leaves the tick active and the cached best stale. -/
theorem C3_invariant_amended (st : Orderbook) (h : BookInv st) :
    (∀ (qty pc : Int) (side : BookSide), BookInv (st.add_order qty pc side)) ∧
    (∀ (ty : OrderType) (q : Int) (sd : Side) (pr : Int),
      BookInv (st.handle_order ty q sd pr).st) ∧
    (∀ (i : Nat) (nq : Int), BookInv (st.modify_order i nq).1) :=
  ⟨fun qty pc side => add_order_inv st qty pc side h,
   fun ty q sd pr => handle_order_inv st ty q sd pr h,
   fun i nq => modify_order_inv st i nq h⟩

/-- C3 witness: invariant preservation applied to an add on the empty
book. -/
theorem C3_invariant_witness :
    BookInv (initOrderbook.add_order 2 7 BookSide.ask) := by
  have h0 : BookInv initOrderbook := by
    refine ⟨fun p => Nat.le_refl 0, fun p => Nat.le_refl 0, fun p => ?_, fun p => ?_⟩
    · constructor
      · intro hm
        exact absurd hm (List.not_mem_nil p)
      · intro hm
        rw [show (initOrderbook.bids p).isEmpty = true from rfl] at hm
        simp at hm
    · constructor
      · intro hm
        exact absurd hm (List.not_mem_nil p)
      · intro hm
        rw [show (initOrderbook.asks p).isEmpty = true from rfl] at hm
        simp at hm
  exact (C3_invariant_amended initOrderbook h0).1 2 7 BookSide.ask

/-- C4 counterexample: with one resting ask of quantity 5 at tick 10100, a
limit buy of 5 at the out-of-range tick 300000 is *not* rejected silently:
it crosses and executes 5 units, changing the book, while the claim says the
return must be (0, 0) with the whole state unchanged. -/
theorem C4_out_of_range_counterexample :
    ((300000 : Int) < MIN_PRICE_CENTS ∨ (300000 : Int) > MAX_PRICE_CENTS) ∧
    ((initOrderbook.add_order 5 10100 BookSide.ask).handle_order
      OrderType.limit 5 Side.buy 300000).units = 5 ∧
    (5 : Int) ≠ 0 ∧
    ((initOrderbook.add_order 5 10100 BookSide.ask).handle_order
        OrderType.limit 5 Side.buy 300000).st.activeAsks ≠
      (initOrderbook.add_order 5 10100 BookSide.ask).activeAsks := by
  decide

/-- C4 (amended): an out-of-range tick is silently dropped only at the
resting step: a limit submission with out-of-range tick that is *not*
marketable against the opposite cached best returns (0, 0) and leaves the
engine state unchanged; a marketable out-of-range limit executes fills
first (see the counterexample) and only its residual is dropped. -/
theorem C4_out_of_range_amended (st : Orderbook) (q pr : Int)
    (h : pr < MIN_PRICE_CENTS ∨ pr > MAX_PRICE_CENTS) :
    (¬((if st.activeAsks = [] then (-1 : Int) else st.bestAsk) ≠ -1 ∧
        (if st.activeAsks = [] then (-1 : Int) else st.bestAsk) ≤ pr) →
      st.handle_order .limit q .buy pr = ⟨st, q, 0, 0⟩) ∧
    (¬((if st.activeBids = [] then (-1 : Int) else st.bestBid) ≠ -1 ∧
        (if st.activeBids = [] then (-1 : Int) else st.bestBid) ≥ pr) →
      st.handle_order .limit q .sell pr = ⟨st, q, 0, 0⟩) := by
  constructor
  · intro hc
    unfold Orderbook.handle_order
    simp only
    rw [if_neg hc]
    unfold Orderbook.add_order
    rw [if_pos h]
  · intro hc
    unfold Orderbook.handle_order
    simp only
    rw [if_neg hc]
    unfold Orderbook.add_order
    rw [if_pos h]

/-- C4 witness: a non-marketable out-of-range limit buy on the empty book
returns (0, 0) and changes nothing. -/
theorem C4_out_of_range_witness :
    initOrderbook.handle_order OrderType.limit 5 Side.buy 300000 =
      ⟨initOrderbook, 5, 0, 0⟩ :=
  (C4_out_of_range_amended initOrderbook 5 300000 (by decide)).1 (by decide)

/-- C5: in the match loop, when the head resting record's quantity strictly
exceeds the remaining inbound quantity q, exactly q units are filled at the
tick, the head record's quantity is decremented in place (it keeps its
position — same backing array index, same head cursor), the registry and the
active set and cached best are untouched, and the loop returns immediately;
consequently scenario S1 leaves exactly one live order — the
second-inserted one, id 2, quantity 50 at tick 10050 — with best bid
10050. -/
theorem C5_partial_fill :
    (∀ (reBest : List Int → Int) (fuel : Nat) (L : PriceLevel) (p q u : Int)
       (v : ℚ) (m : Meta) (act : List Int) (b : Int) (o : Order),
      L.front = some o → o.quantity > q → 0 < q →
      fillLevel reBest (fuel + 1) L p q u v m act b =
        ⟨{ L with orders := L.orders.set L.head { o with quantity := o.quantity - q } },
          0, u + q, v + ((q * p : Int) : ℚ) / 100, m, act, b⟩) ∧
    (s1Run.units = 200 ∧
     (s1Run.st.bids 10050).live = [⟨2, 10050, 50⟩] ∧
     s1Run.st.bestBid = 10050 ∧
     s1Run.st.activeBids = [10050] ∧
     metaLookup s1Run.st.meta 2 = some (.bid, 10050) ∧
     metaLookup s1Run.st.meta 1 = none ∧
     (∀ t : Int, t ≠ 10050 → (s1Run.st.bids t).live = []) ∧
     (∀ t : Int, (s1Run.st.asks t).live = [])) := by
  constructor
  · intro reBest fuel L p q u v m act b o hfr hq hqpos
    have hne : L.isEmpty = false := by
      cases hL : L.isEmpty with
      | false => rfl
      | true =>
        unfold PriceLevel.front at hfr
        rw [hL] at hfr
        simp at hfr
    have hg : ¬(L.isEmpty = true ∨ q ≤ 0) := by
      rw [hne]
      simp
      omega
    simp only [fillLevel, if_neg hg, hfr, if_pos hq]
  · refine ⟨by decide, by decide, by decide, by decide, by decide, by decide, ?_, ?_⟩
    · intro t ht
      have hb : s1Run.st.bids =
          updLevel (updLevel (updLevel (fun _ => ⟨[], 0⟩) 10050 ⟨[⟨1, 10050, 100⟩], 0⟩)
            10050 ⟨[⟨1, 10050, 100⟩, ⟨2, 10050, 150⟩], 0⟩)
            10050 ⟨[⟨1, 10050, 100⟩, ⟨2, 10050, 50⟩], 1⟩ := rfl
      rw [hb]
      unfold updLevel
      rw [if_neg ht, if_neg ht, if_neg ht]
      rfl
    · intro t
      have ha : s1Run.st.asks = fun _ => ⟨[], 0⟩ := rfl
      rw [ha]
      rfl

/-- C5 witness: the partial-fill step on a concrete one-order level — head
quantity 3 against inbound 2 leaves quantity 1 in place and stops. -/
theorem C5_partial_fill_witness :
    fillLevel reBestBid 1 ⟨[⟨1, 5, 3⟩], 0⟩ 5 2 0 0 [] [] 0 =
      ⟨⟨[⟨1, 5, 1⟩], 0⟩, 0, 0 + 2, 0 + ((2 * 5 : Int) : ℚ) / 100, [], [], 0⟩ :=
  C5_partial_fill.1 reBestBid 0 ⟨[⟨1, 5, 3⟩], 0⟩ 5 2 0 0 [] [] 0 ⟨1, 5, 3⟩
    rfl (by decide) (by decide)

/-- C6: `modify_order` returns false and changes nothing when the id is
absent from the registry; when the registry maps the id to (side, tick) and
the live queue at that tick contains the record (split as
`pre ++ record :: post` with no earlier id match), it overwrites exactly
that record's quantity in place — `pre` and `post` are untouched, so queue
position (price-time priority) is preserved — returns true, and leaves the
registry, both active sets, the cached bests and the other side unchanged
(everything but the one level is the same record fields). -/
theorem C6_modify_order (st : Orderbook) (i : Nat) (nq : Int) :
    (metaLookup st.meta i = none → st.modify_order i nq = (st, false)) ∧
    (∀ (t : Int) (pre post : List Order) (o : Order),
      metaLookup st.meta i = some (.bid, t) →
      ¬(t < MIN_PRICE_CENTS ∨ t > MAX_PRICE_CENTS + 1) →
      (st.bids t).live = pre ++ o :: post →
      (∀ x ∈ pre, x.id ≠ i) → o.id = i →
      st.modify_order i nq =
        ({ st with bids := updLevel st.bids t (PriceLevel.mk
            ((st.bids t).orders.take (st.bids t).head ++
              (pre ++ { o with quantity := nq } :: post)) (st.bids t).head) }, true)) ∧
    (∀ (t : Int) (pre post : List Order) (o : Order),
      metaLookup st.meta i = some (.ask, t) →
      ¬(t < MIN_PRICE_CENTS ∨ t > MAX_PRICE_CENTS + 1) →
      (st.asks t).live = pre ++ o :: post →
      (∀ x ∈ pre, x.id ≠ i) → o.id = i →
      st.modify_order i nq =
        ({ st with asks := updLevel st.asks t (PriceLevel.mk
            ((st.asks t).orders.take (st.asks t).head ++
              (pre ++ { o with quantity := nq } :: post)) (st.asks t).head) }, true)) := by
  refine ⟨?_, ?_, ?_⟩
  · intro h
    unfold Orderbook.modify_order
    rw [h]
  · intro t pre post o hl hr hlive hpre ho
    unfold Orderbook.modify_order
    rw [hl]
    simp only
    rw [if_neg hr]
    unfold PriceLevel.modifyById
    rw [hlive, modifyFirstById_spec pre o post i nq hpre ho]
  · intro t pre post o hl hr hlive hpre ho
    unfold Orderbook.modify_order
    rw [hl]
    simp only
    rw [if_neg hr]
    unfold PriceLevel.modifyById
    rw [hlive, modifyFirstById_spec pre o post i nq hpre ho]

/-- C6 witness: modify of an unknown id on the empty book, and modify of
the sole resting bid on a one-order book. -/
theorem C6_modify_order_witness :
    (initOrderbook.modify_order 1 99 = (initOrderbook, false)) ∧
    ((initOrderbook.add_order 7 50 BookSide.bid).modify_order 1 99 =
      ({ initOrderbook.add_order 7 50 BookSide.bid with
          bids := updLevel (initOrderbook.add_order 7 50 BookSide.bid).bids 50
            (PriceLevel.mk
              (((initOrderbook.add_order 7 50 BookSide.bid).bids 50).orders.take
                ((initOrderbook.add_order 7 50 BookSide.bid).bids 50).head ++
                ([] ++ (⟨1, 50, 99⟩ : Order) :: []))
              ((initOrderbook.add_order 7 50 BookSide.bid).bids 50).head) }, true)) :=
  ⟨(C6_modify_order initOrderbook 1 99).1 rfl,
   (C6_modify_order (initOrderbook.add_order 7 50 BookSide.bid) 1 99).2.1 50 [] []
     ⟨1, 50, 7⟩ rfl (by decide) rfl
     (fun x hx => absurd hx (List.not_mem_nil x)) rfl⟩

/-- C7 counterexample: `add_order` performs no crossing check — adding an
ask at 100 and then a bid at 150 (an add that does not invoke matching, as
no `add_order` call ever matches) leaves both sides non-empty with cached
spread 100 − 150 = −50 < 0. -/
theorem C7_spread_counterexample :
    ((initOrderbook.add_order 1 100 BookSide.ask).add_order 1 150
      BookSide.bid).activeBids ≠ [] ∧
    ((initOrderbook.add_order 1 100 BookSide.ask).add_order 1 150
      BookSide.bid).activeAsks ≠ [] ∧
    ((initOrderbook.add_order 1 100 BookSide.ask).add_order 1 150
        BookSide.bid).bestAsk -
      ((initOrderbook.add_order 1 100 BookSide.ask).add_order 1 150
        BookSide.bid).bestBid < 0 := by
  decide

/-- C7 (amended): the raw seed API `add_order` can cross the book (see the
counterexample).  What holds: a limit submission through `handle_order`
that takes the non-marketable resting branch preserves a non-negative
cached spread, given the cached-best sentinel conventions (`m_best_ask =
MAX+1` when no active asks, `m_best_bid = 0` when no active bids, and the
ask cache not equal to the `-1` sentinel). -/
theorem C7_spread_amended (st : Orderbook) (q pr : Int) (sd : Side)
    (h1 : st.bestBid ≤ st.bestAsk)
    (h2 : st.activeAsks = [] → st.bestAsk = MAX_PRICE_CENTS + 1)
    (h3 : st.activeBids = [] → st.bestBid = 0)
    (h4 : st.bestAsk ≠ -1)
    (hrest : match sd with
      | .buy => ¬((if st.activeAsks = [] then (-1 : Int) else st.bestAsk) ≠ -1 ∧
          (if st.activeAsks = [] then (-1 : Int) else st.bestAsk) ≤ pr)
      | .sell => ¬((if st.activeBids = [] then (-1 : Int) else st.bestBid) ≠ -1 ∧
          (if st.activeBids = [] then (-1 : Int) else st.bestBid) ≥ pr)) :
    (st.handle_order .limit q sd pr).st.bestBid ≤
      (st.handle_order .limit q sd pr).st.bestAsk := by
  cases sd
  · simp only at hrest
    unfold Orderbook.handle_order
    simp only
    rw [if_neg hrest]
    simp only
    unfold Orderbook.add_order
    by_cases hr : pr < MIN_PRICE_CENTS ∨ pr > MAX_PRICE_CENTS
    · rw [if_pos hr]
      exact h1
    · rw [if_neg hr]
      simp only
      unfold MIN_PRICE_CENTS MAX_PRICE_CENTS at hr
      by_cases hA : st.activeAsks = []
      · have hs := h2 hA
        unfold MAX_PRICE_CENTS at hs
        split <;> omega
      · rw [if_neg hA] at hrest
        have hlt : pr < st.bestAsk := by
          rcases not_and_or.mp hrest with hx | hx
          · exact absurd (not_not.mp hx) h4
          · omega
        split <;> omega
  · simp only at hrest
    unfold Orderbook.handle_order
    simp only
    rw [if_neg hrest]
    simp only
    unfold Orderbook.add_order
    by_cases hr : pr < MIN_PRICE_CENTS ∨ pr > MAX_PRICE_CENTS
    · rw [if_pos hr]
      exact h1
    · rw [if_neg hr]
      simp only
      unfold MIN_PRICE_CENTS MAX_PRICE_CENTS at hr
      by_cases hB : st.activeBids = []
      · have hs := h3 hB
        split <;> omega
      · rw [if_neg hB] at hrest
        rcases not_and_or.mp hrest with hx | hx
        · have hbb : st.bestBid = -1 := not_not.mp hx
          split <;> omega
        · have hgt : ¬ st.bestBid ≥ pr := hx
          split <;> omega

/-- C7 witness: a resting limit buy at 100 on the empty book keeps the
cached spread non-negative. -/
theorem C7_spread_witness :
    (initOrderbook.handle_order .limit 5 .buy 100).st.bestBid ≤
      (initOrderbook.handle_order .limit 5 .buy 100).st.bestAsk :=
  C7_spread_amended initOrderbook 5 100 Side.buy (by decide) (fun _ => rfl)
    (fun _ => rfl) (by decide) (by decide)

/-- C8 counterexample: `best_quote` is a linear scan of the dense array, not
a read of the cached best.  In `staleBook` (bids added at 100 and 90, the
one at 100 cancelled) the bid side still holds a resting order at 90, the
cached best bid is (stale) 100, and `best_quote` returns 90 ≠ 100. -/
theorem C8_best_quote_counterexample :
    staleBook.best_quote BookSide.bid = 90 ∧
    staleBook.bestBid = 100 ∧
    (staleBook.bids 90).isEmpty = false ∧
    (90 : Int) ≠ 100 := by
  refine ⟨?_, by decide, by decide, by decide⟩
  have hb : staleBook.bids =
      updLevel (updLevel (updLevel (fun _ => ⟨[], 0⟩) 100 ⟨[⟨1, 100, 1⟩], 0⟩) 90
        ⟨[⟨2, 90, 1⟩], 0⟩) 100 ⟨[], 0⟩ := rfl
  show scanDownBid staleBook.bids 200000 MAX_PRICE_CENTS = 90
  apply scanDownBid_hit
  · show MAX_PRICE_CENTS - 200000 < 90
    norm_num [MAX_PRICE_CENTS]
  · norm_num [MAX_PRICE_CENTS]
  · decide
  · intro t ht1 ht2
    rw [hb]
    unfold updLevel
    by_cases h100 : t = (100 : Int)
    · simp only [h100, if_true]
      decide
    · by_cases h90 : t = (90 : Int)
      · omega
      · simp [h100, h90]
        rfl

/-- C8 (amended): `best_quote` returns, by linear scan, the greatest tick
with a non-empty bid level (respectively the least tick with a non-empty
ask level), or −1 when every level of that side in [P_min, P_max] is
empty.  It coincides with the cached best only while the cache is
consistent — after a cancel drains a level the cache can go stale (see the
counterexample). -/
theorem C8_best_quote_amended (st : Orderbook) :
    (∀ p : Int, MIN_PRICE_CENTS ≤ p → p ≤ MAX_PRICE_CENTS →
      (st.bids p).isEmpty = false →
      (∀ t : Int, p < t → t ≤ MAX_PRICE_CENTS → (st.bids t).isEmpty = true) →
      st.best_quote .bid = p) ∧
    ((∀ t : Int, MIN_PRICE_CENTS ≤ t → t ≤ MAX_PRICE_CENTS →
      (st.bids t).isEmpty = true) → st.best_quote .bid = -1) ∧
    (∀ p : Int, MIN_PRICE_CENTS ≤ p → p ≤ MAX_PRICE_CENTS →
      (st.asks p).isEmpty = false →
      (∀ t : Int, MIN_PRICE_CENTS ≤ t → t < p → (st.asks t).isEmpty = true) →
      st.best_quote .ask = p) ∧
    ((∀ t : Int, MIN_PRICE_CENTS ≤ t → t ≤ MAX_PRICE_CENTS →
      (st.asks t).isEmpty = true) → st.best_quote .ask = -1) := by
  refine ⟨?_, ?_, ?_, ?_⟩
  · intro p hp1 hp2 hne hup
    show scanDownBid st.bids 200000 MAX_PRICE_CENTS = p
    unfold MIN_PRICE_CENTS MAX_PRICE_CENTS at *
    exact scanDownBid_hit st.bids 200000 200000 p (by omega) (by omega) hne
      (fun t ht1 ht2 => hup t ht1 (by omega))
  · intro hall
    show scanDownBid st.bids 200000 MAX_PRICE_CENTS = -1
    unfold MIN_PRICE_CENTS MAX_PRICE_CENTS at *
    exact scanDownBid_none st.bids 200000 200000
      (fun t ht1 ht2 => hall t (by omega) (by omega))
  · intro p hp1 hp2 hne hlow
    show scanUpAsk st.asks 200000 MIN_PRICE_CENTS = p
    unfold MIN_PRICE_CENTS MAX_PRICE_CENTS at *
    exact scanUpAsk_hit st.asks 200000 1 p (by omega) (by omega) hne
      (fun t ht1 ht2 => hlow t (by omega) ht2)
  · intro hall
    show scanUpAsk st.asks 200000 MIN_PRICE_CENTS = -1
    unfold MIN_PRICE_CENTS MAX_PRICE_CENTS at *
    exact scanUpAsk_none st.asks 200000 1
      (fun t ht1 ht2 => hall t (by omega) (by omega))

/-- C8 witness: `best_quote` on a book with a single bid at 123 returns
123. -/
theorem C8_best_quote_witness :
    (initOrderbook.add_order 3 123 BookSide.bid).best_quote BookSide.bid = 123 :=
  (C8_best_quote_amended (initOrderbook.add_order 3 123 BookSide.bid)).1 123
    (by decide) (by decide) (by decide)
    (by
      intro t h1 h2
      have hb : (initOrderbook.add_order 3 123 BookSide.bid).bids =
          updLevel (fun _ => ⟨[], 0⟩) 123 ⟨[⟨1, 123, 3⟩], 0⟩ := rfl
      rw [hb]
      unfold updLevel
      rw [if_neg (by omega)]
      rfl)

/-- C9 counterexample: releasing an in-range handle whose record is not
live — a double release — is silently ignored (`if (!order ||
!order->active) return;`), not fatal: the pool is returned unchanged with
outcome `ignored`, contradicting "release is fatal on every invalid handle
and never silently ignores either case". -/
theorem C9_release_counterexample :
    OrderPool.release ⟨[false], [0]⟩ (PoolHandle.inPool 0) =
      (⟨[false], [0]⟩, ReleaseOutcome.ignored) ∧
    ReleaseOutcome.ignored ≠ ReleaseOutcome.fatal := by
  decide

/-- C9 (amended): `release` silently ignores a null handle and any handle
whose liveness read is false (in particular a double release is a no-op);
it aborts only on a foreign pointer whose liveness read is true; a live
in-range handle is freed (liveness cleared, index pushed on the free
stack). -/
theorem C9_release_amended (P : OrderPool) (idx : Nat) (a : Bool) :
    (P.slots.getD idx false = false →
      P.release (.inPool idx) = (P, .ignored)) ∧
    ((P.release (.foreign a)).2 = if a then .fatal else .ignored) ∧
    (P.release .null = (P, .ignored)) ∧
    (P.slots.getD idx false = true →
      P.release (.inPool idx) = (⟨P.slots.set idx false, idx :: P.free⟩, .freed)) := by
  refine ⟨?_, ?_, rfl, ?_⟩
  · intro h
    simp only [OrderPool.release]
    rw [if_pos h]
  · simp only [OrderPool.release]
    cases a
    · simp
    · simp
  · intro h
    simp only [OrderPool.release]
    rw [if_neg (by rw [h]; simp)]

/-- C9 witness: the amended behaviour on two concrete pools — a dead slot
is ignored, a live slot is freed. -/
theorem C9_release_witness :
    (OrderPool.release ⟨[false], []⟩ (PoolHandle.inPool 0) =
      (⟨[false], []⟩, ReleaseOutcome.ignored)) ∧
    (OrderPool.release ⟨[true], []⟩ (PoolHandle.inPool 0) =
      (⟨[false], [0]⟩, ReleaseOutcome.freed)) :=
  ⟨(C9_release_amended ⟨[false], []⟩ 0 true).1 rfl,
   (C9_release_amended ⟨[true], []⟩ 0 true).2.2.2 rfl⟩

/-- C10: the price-level read interface is total — `front` on an empty
level yields the null pointer (`none`) instead of an out-of-range element,
`pop_front` on an empty level leaves the level unchanged, `erase` at an
index before the head cursor (a dead slot) is a no-op, and whenever `front`
returns a record the head cursor is strictly inside the backing array and
the record is the element there (no read past the array). -/
theorem C10_level_accessors (L : PriceLevel) (i : Nat) (o : Order) :
    (L.isEmpty = true → L.front = none) ∧
    (L.isEmpty = true → L.popFront = L) ∧
    (i < L.head → L.eraseAt i = L) ∧
    (L.front = some o → L.head < L.orders.length ∧
      L.orders.get? L.head = some o) := by
  refine ⟨?_, ?_, ?_, ?_⟩
  · intro h
    unfold PriceLevel.front
    rw [h]
    rfl
  · intro h
    unfold PriceLevel.popFront
    rw [h]
    rfl
  · intro h
    unfold PriceLevel.eraseAt
    rw [if_pos h]
  · intro h
    unfold PriceLevel.front at h
    cases hL : L.isEmpty with
    | true =>
      rw [hL] at h
      simp at h
    | false =>
      rw [hL] at h
      simp only [Bool.false_eq_true, if_false] at h
      exact ⟨(isEmpty_eq_false_iff L).mp hL, h⟩

/-- C10 witness: the accessor behaviours at concrete levels. -/
theorem C10_level_accessors_witness :
    ((⟨[], 0⟩ : PriceLevel).front = none) ∧
    ((⟨[], 0⟩ : PriceLevel).popFront = ⟨[], 0⟩) ∧
    ((⟨[⟨1, 5, 7⟩], 2⟩ : PriceLevel).eraseAt 1 = ⟨[⟨1, 5, 7⟩], 2⟩) ∧
    ((⟨[⟨1, 5, 7⟩], 0⟩ : PriceLevel).head <
        (⟨[⟨1, 5, 7⟩], 0⟩ : PriceLevel).orders.length ∧
      (⟨[⟨1, 5, 7⟩], 0⟩ : PriceLevel).orders.get?
        (⟨[⟨1, 5, 7⟩], 0⟩ : PriceLevel).head = some ⟨1, 5, 7⟩) :=
  ⟨(C10_level_accessors ⟨[], 0⟩ 0 ⟨1, 5, 7⟩).1 (by decide),
   (C10_level_accessors ⟨[], 0⟩ 0 ⟨1, 5, 7⟩).2.1 (by decide),
   (C10_level_accessors ⟨[⟨1, 5, 7⟩], 2⟩ 1 ⟨1, 5, 7⟩).2.2.1 (by decide),
   (C10_level_accessors ⟨[⟨1, 5, 7⟩], 0⟩ 0 ⟨1, 5, 7⟩).2.2.2 (by decide)⟩
